import Mathlib

/-!
Shallow embedding of `tjh::Publisher` (src/src/Publisher.h).

The C++ class keeps `_callbacks : std::list<std::weak_ptr<std::function<void(T...)>>>`.
`subscribe` appends a weak observation unless it is already expired.
`fire` (named `publish` in the second header; the bodies are identical) first
purges expired entries in place, then copies the list (the snapshot) and
invokes every entry that can still be locked, passing the event arguments.

Handles are modelled by natural-number identifiers.  A `PubState` carries the
strong-reference count of every handle (a handle is expired exactly when its
count is zero, mirroring `weak_ptr::expired`), the publisher's `_callbacks`
list, and a log of the invocations performed so far (handle id paired with the
argument it received).  The body of a listener callback is modelled by an
environment assigning to each handle and argument a list of `Action`s: the
effects a callback may perform that are visible to the publisher — releasing a
strong reference (`shared_ptr::reset`), calling `subscribe`, or throwing.
-/

namespace Publisher

/-- Effects a listener callback can perform while it runs: release one strong
reference to a handle, call `subscribe` with a weak observation of a handle,
or raise an error. -/
inductive Action where
  | release (h : Nat) : Action
  | subscribeTo (h : Nat) : Action
  | throwErr : Action
deriving DecidableEq, Repr

/-- State of one publisher together with the strong-reference counts of all
subscription handles and the trace of callback invocations. -/
@[ext]
structure PubState (α : Type) where
  refcount : Nat → Nat
  callbacks : List Nat
  log : List (Nat × α)

/-- Pointwise update of a reference-count table. -/
def setRC (h n : Nat) (rc : Nat → Nat) : Nat → Nat :=
  fun k => if k = h then n else rc k

/-- `weak_ptr::expired`: no strong reference exists. -/
def expired {α : Type} (s : PubState α) (h : Nat) : Bool :=
  s.refcount h == 0

/-- Acquiring one more strong reference to handle `h` (`weak_ptr::lock`). -/
def incRef {α : Type} (h : Nat) (s : PubState α) : PubState α :=
  { s with refcount := setRC h (s.refcount h + 1) s.refcount }

/-- Dropping one strong reference to handle `h` (`shared_ptr` destruction or
`reset`). -/
def decRef {α : Type} (h : Nat) (s : PubState α) : PubState α :=
  { s with refcount := setRC h (s.refcount h - 1) s.refcount }

/-- `Publisher::subscribe`: if the supplied weak observation is not expired,
append it to `_callbacks`; otherwise do nothing. -/
def subscribe {α : Type} (cb : Nat) (s : PubState α) : PubState α :=
  if expired s cb then s else { s with callbacks := s.callbacks ++ [cb] }

/-- The purge loop at the top of `fire`: walk the list front to back, erasing
every entry whose weak observation is expired and keeping the rest in place. -/
def purgeExpired (rc : Nat → Nat) : List Nat → List Nat
  | [] => []
  | c :: rest => if rc c = 0 then purgeExpired rc rest else c :: purgeExpired rc rest

/-- Run one callback action.  The `Bool` is true when the action threw. -/
def runAction {α : Type} (s : PubState α) : Action → PubState α × Bool
  | .release h => (decRef h s, false)
  | .subscribeTo h => (subscribe h s, false)
  | .throwErr => (s, true)

/-- Run the body of a callback: its actions in order, stopping at a throw. -/
def runActions {α : Type} (s : PubState α) : List Action → PubState α × Bool
  | [] => (s, false)
  | a :: rest =>
    let r := runAction s a
    if r.2 then (r.1, true) else runActions r.1 rest

/-- One iteration of the dispatch loop, on snapshot entry `c`:
`if (auto ptr = callback->lock()) { ptr->operator()(args...); }`.
If the lock fails the entry is skipped silently.  Otherwise a temporary strong
reference is taken, the invocation is recorded in the log, the callback body
runs, and the temporary reference is dropped when the invocation returns
(also during unwinding when the body threw). -/
def dispatchStep {α : Type} (env : Nat → α → List Action) (x : α) (c : Nat)
    (s : PubState α) : PubState α × Bool :=
  if s.refcount c = 0 then (s, false)
  else
    let locked := incRef c s
    let invoked := { locked with log := locked.log ++ [(c, x)] }
    let r := runActions invoked (env c x)
    (decRef c r.1, r.2)

/-- The dispatch loop over the snapshot, front to back; a throw propagates at
once, so later snapshot entries are not visited. -/
def dispatchSnapshot {α : Type} (env : Nat → α → List Action) (x : α) :
    List Nat → PubState α → PubState α × Bool
  | [], s => (s, false)
  | c :: rest, s =>
    let r := dispatchStep env x c s
    if r.2 then (r.1, true) else dispatchSnapshot env x rest r.1

/-- `Publisher::fire` (called `publish` in the second header): purge expired
entries from `_callbacks` in place, copy the list, and dispatch over the copy.
The `Bool` of the result is true when a callback threw, in which case the
error propagates to the caller. -/
def fire {α : Type} (env : Nat → α → List Action) (x : α) (s : PubState α) :
    PubState α × Bool :=
  let purged : PubState α := { s with callbacks := purgeExpired s.refcount s.callbacks }
  let snapshot := purged.callbacks
  dispatchSnapshot env x snapshot purged

/-- `Publisher::publish` of the second header is the same algorithm as `fire`. -/
def publish {α : Type} (env : Nat → α → List Action) (x : α) (s : PubState α) :
    PubState α × Bool :=
  fire env x s

/-- Reference-count table giving each of the handles 1..k exactly one strong
reference (held by its listener) and every other handle none. -/
def rcUpTo (k : Nat) : Nat → Nat :=
  fun h => if 1 ≤ h ∧ h ≤ k then 1 else 0

/-- Publisher with the three live subscribers 1, 2, 3 and an empty log. -/
def stABC : PubState Nat :=
  { refcount := rcUpTo 3, callbacks := [1, 2, 3], log := [] }

/-- Environment in which subscriber 2's callback releases its own handle's last
strong reference and every other callback does nothing. -/
def envSelf : Nat → Nat → List Action :=
  fun h _ => if h = 2 then [Action.release 2] else []

/-- Environment in which subscriber 2's callback subscribes the brand-new live
handle 4 and every other callback does nothing. -/
def envSub : Nat → Nat → List Action :=
  fun h _ => if h = 2 then [Action.subscribeTo 4] else []

/-- Environment in which every callback does nothing. -/
def envNop : Nat → Nat → List Action :=
  fun _ _ => []

/-- Publisher with the two live subscribers 1 and 2 and an empty log. -/
def throwState : PubState Nat :=
  { refcount := rcUpTo 2, callbacks := [1, 2], log := [] }

/-- Environment in which subscriber 1's callback raises an error and every
other callback does nothing. -/
def throwEnv : Nat → Nat → List Action :=
  fun h _ => if h = 1 then [Action.throwErr] else []

variable {α : Type}

@[simp]
theorem setRC_self (h n : Nat) (rc : Nat → Nat) : setRC h n rc h = n := by
  simp [setRC]

theorem setRC_ne {h k : Nat} (n : Nat) (rc : Nat → Nat) (hk : k ≠ h) :
    setRC h n rc k = rc k := by
  simp [setRC, hk]

@[simp]
theorem setRC_setRC (h v w : Nat) (rc : Nat → Nat) :
    setRC h v (setRC h w rc) = setRC h v rc := by
  funext k
  by_cases hk : k = h <;> simp [setRC, hk]

@[simp]
theorem setRC_id (h : Nat) (rc : Nat → Nat) : setRC h (rc h) rc = rc := by
  funext k
  by_cases hk : k = h <;> simp [setRC, hk]

@[simp]
theorem incRef_refcount_other {c d : Nat} (s : PubState α) (h : d ≠ c) :
    (incRef c s).refcount d = s.refcount d := by
  simp [incRef, setRC, h]

@[simp]
theorem decRef_refcount_other {c d : Nat} (s : PubState α) (h : d ≠ c) :
    (decRef c s).refcount d = s.refcount d := by
  simp [decRef, setRC, h]

theorem subscribe_of_live {c : Nat} {s : PubState α} (h : 0 < s.refcount c) :
    subscribe c s = { s with callbacks := s.callbacks ++ [c] } := by
  have hc : expired s c = false := by
    simp [expired]
    omega
  simp [subscribe, hc]

theorem subscribe_of_dead {c : Nat} {s : PubState α} (h : s.refcount c = 0) :
    subscribe c s = s := by
  have hc : expired s c = true := by simp [expired, h]
  simp [subscribe, hc]

@[simp]
theorem subscribe_refcount (c : Nat) (s : PubState α) :
    (subscribe c s).refcount = s.refcount := by
  unfold subscribe
  by_cases hc : expired s c <;> simp [hc]

@[simp]
theorem subscribe_log (c : Nat) (s : PubState α) :
    (subscribe c s).log = s.log := by
  unfold subscribe
  by_cases hc : expired s c <;> simp [hc]

theorem runAction_log (s : PubState α) (a : Action) : (runAction s a).1.log = s.log := by
  cases a <;> simp [runAction, decRef]

theorem runAction_refcount_dead {s : PubState α} {d : Nat} (a : Action)
    (h : s.refcount d = 0) : (runAction s a).1.refcount d = 0 := by
  cases a with
  | release k =>
    by_cases hk : d = k
    · subst hk
      simp [runAction, decRef, h]
    · simp [runAction, decRef, setRC, hk, h]
  | subscribeTo k => simp [runAction, h]
  | throwErr => simpa [runAction] using h

theorem runAction_callbacks_extend (s : PubState α) (a : Action) :
    ∃ ext, (runAction s a).1.callbacks = s.callbacks ++ ext := by
  cases a with
  | release k => exact ⟨[], by simp [runAction, decRef]⟩
  | subscribeTo k =>
    by_cases hk : expired s k
    · exact ⟨[], by simp [runAction, subscribe, hk]⟩
    · exact ⟨[k], by simp [runAction, subscribe, hk]⟩
  | throwErr => exact ⟨[], by simp [runAction]⟩

theorem runAction_dead_not_mem {s : PubState α} {d : Nat} (a : Action)
    (hdead : s.refcount d = 0) (h : d ∉ s.callbacks) :
    d ∉ (runAction s a).1.callbacks := by
  cases a with
  | release k => simpa [runAction, decRef] using h
  | subscribeTo k =>
    by_cases hk : expired s k
    · simpa [runAction, subscribe, hk] using h
    · have hkd : k ≠ d := by
        intro he
        subst he
        simp [expired, hdead] at hk
      simp [runAction, subscribe, hk, h, hkd, Ne.symm hkd]
  | throwErr => simpa [runAction] using h

theorem runActions_log (s : PubState α) (acts : List Action) :
    (runActions s acts).1.log = s.log := by
  induction acts generalizing s with
  | nil => rfl
  | cons a rest ih =>
    by_cases ht : (runAction s a).2
    · simp [runActions, ht, runAction_log]
    · simp [runActions, ht, ih, runAction_log]

theorem runActions_dead {s : PubState α} {d : Nat} (acts : List Action)
    (h : s.refcount d = 0) :
    (runActions s acts).1.refcount d = 0 ∧
      (d ∉ s.callbacks → d ∉ (runActions s acts).1.callbacks) := by
  induction acts generalizing s with
  | nil => exact ⟨h, fun hm => hm⟩
  | cons a rest ih =>
    by_cases ht : (runAction s a).2
    · refine ⟨?_, ?_⟩
      · simpa [runActions, ht] using runAction_refcount_dead a h
      · intro hm
        simpa [runActions, ht] using runAction_dead_not_mem a h hm
    · have h1 := runAction_refcount_dead a h
      refine ⟨?_, ?_⟩
      · simpa [runActions, ht] using (ih h1).1
      · intro hm
        simpa [runActions, ht] using (ih h1).2 (runAction_dead_not_mem a h hm)

theorem runActions_callbacks_extend (s : PubState α) (acts : List Action) :
    ∃ ext, (runActions s acts).1.callbacks = s.callbacks ++ ext := by
  induction acts generalizing s with
  | nil => exact ⟨[], by simp [runActions]⟩
  | cons a rest ih =>
    obtain ⟨e1, he1⟩ := runAction_callbacks_extend s a
    by_cases ht : (runAction s a).2
    · exact ⟨e1, by simp [runActions, ht, he1]⟩
    · obtain ⟨e2, he2⟩ := ih (runAction s a).1
      exact ⟨e1 ++ e2, by simp [runActions, ht, he2, he1]⟩

theorem runActions_no_throw {s : PubState α} {acts : List Action}
    (h : Action.throwErr ∉ acts) : (runActions s acts).2 = false := by
  induction acts generalizing s with
  | nil => rfl
  | cons a rest ih =>
    have ha : a ≠ Action.throwErr := by
      intro he
      exact h (he ▸ List.mem_cons_self a rest)
    have ht : (runAction s a).2 = false := by
      cases a with
      | release k => rfl
      | subscribeTo k => rfl
      | throwErr => exact absurd rfl ha
    simp [runActions, ht, ih (fun hm => h (List.mem_cons_of_mem a hm))]

theorem dispatchStep_inert {env : Nat → α → List Action} {x : α} {c : Nat} {s : PubState α}
    (hlive : 0 < s.refcount c) (hinert : env c x = []) :
    dispatchStep env x c s = ({ s with log := s.log ++ [(c, x)] }, false) := by
  have hc : ¬ s.refcount c = 0 := by omega
  simp [dispatchStep, hc, hinert, runActions, incRef, decRef]

theorem dispatchStep_self_release {env : Nat → α → List Action} {x : α} {d : Nat}
    {s : PubState α} (h1 : s.refcount d = 1) (hact : env d x = [Action.release d]) :
    dispatchStep env x d s =
      ({ s with refcount := setRC d 0 s.refcount, log := s.log ++ [(d, x)] }, false) := by
  have hd : ¬ s.refcount d = 0 := by omega
  simp [dispatchStep, hd, hact, runActions, runAction, incRef, decRef, h1]

theorem dispatchStep_subscribes {env : Nat → α → List Action} {x : α} {h0 n : Nat}
    {s : PubState α} (hl : 0 < s.refcount h0) (hn : 0 < s.refcount n) (hne : n ≠ h0)
    (hact : env h0 x = [Action.subscribeTo n]) :
    dispatchStep env x h0 s =
      ({ s with callbacks := s.callbacks ++ [n], log := s.log ++ [(h0, x)] }, false) := by
  have hd : ¬ s.refcount h0 = 0 := by omega
  have hexp :
      expired
        ({ refcount := setRC h0 (s.refcount h0 + 1) s.refcount,
           callbacks := s.callbacks,
           log := s.log ++ [(h0, x)] } : PubState α) n = false := by
    simp [expired, setRC, hne]
    omega
  simp [dispatchStep, hd, hact, runActions, runAction, subscribe, hexp, incRef, decRef]

theorem dispatchStep_throws {env : Nat → α → List Action} {x : α} {f : Nat}
    {s : PubState α} (hl : 0 < s.refcount f) (hact : env f x = [Action.throwErr]) :
    dispatchStep env x f s = ({ s with log := s.log ++ [(f, x)] }, true) := by
  have hd : ¬ s.refcount f = 0 := by omega
  simp [dispatchStep, hd, hact, runActions, runAction, incRef, decRef]

theorem dispatchStep_dead {env : Nat → α → List Action} {x : α} {c d : Nat}
    {s : PubState α} (hd : s.refcount d = 0) :
    (dispatchStep env x c s).1.refcount d = 0 ∧
      (∃ ext, (dispatchStep env x c s).1.log = s.log ++ ext ∧ ∀ y, (d, y) ∉ ext) ∧
      (d ∉ s.callbacks → d ∉ (dispatchStep env x c s).1.callbacks) := by
  by_cases hc : s.refcount c = 0
  · refine ⟨by simp [dispatchStep, hc, hd], ⟨[], by simp [dispatchStep, hc], by simp⟩,
      fun hm => by simpa [dispatchStep, hc] using hm⟩
  · have hcd : d ≠ c := by
      intro he
      exact hc (he ▸ hd)
    have hdead2 : ({ incRef c s with
        log := (incRef c s).log ++ [(c, x)] } : PubState α).refcount d = 0 := by
      simpa [incRef, setRC, hcd] using hd
    have hrun := runActions_dead (s := { incRef c s with
        log := (incRef c s).log ++ [(c, x)] }) (env c x) hdead2
    refine ⟨?_, ?_, ?_⟩
    · simpa [dispatchStep, hc, decRef, setRC, hcd] using hrun.1
    · refine ⟨[(c, x)], ?_, ?_⟩
      · simp [dispatchStep, hc, decRef, runActions_log, incRef]
      · intro y hy
        simp at hy
        exact hcd hy.1
    · intro hm
      have hm2 : d ∉ ({ incRef c s with
          log := (incRef c s).log ++ [(c, x)] } : PubState α).callbacks := by
        simpa [incRef] using hm
      simpa [dispatchStep, hc, decRef] using hrun.2 hm2

theorem dispatchStep_callbacks_extend (env : Nat → α → List Action) (x : α) (c : Nat)
    (s : PubState α) :
    ∃ ext, (dispatchStep env x c s).1.callbacks = s.callbacks ++ ext := by
  by_cases hc : s.refcount c = 0
  · exact ⟨[], by simp [dispatchStep, hc]⟩
  · obtain ⟨e, he⟩ := runActions_callbacks_extend
      ({ incRef c s with log := (incRef c s).log ++ [(c, x)] } : PubState α) (env c x)
    exact ⟨e, by simpa [dispatchStep, hc, decRef, incRef] using he⟩

theorem dispatchSnapshot_inert {env : Nat → α → List Action} {x : α} :
    ∀ (T : List Nat) (s : PubState α),
      (∀ c ∈ T, 0 < s.refcount c) → (∀ c ∈ T, env c x = []) →
      dispatchSnapshot env x T s =
        ({ s with log := s.log ++ T.map (fun c => (c, x)) }, false) := by
  intro T
  induction T with
  | nil =>
    intro s _ _
    simp [dispatchSnapshot]
  | cons c rest ih =>
    intro s hlive hinert
    have hstep := dispatchStep_inert (hlive c (List.mem_cons_self c rest))
      (hinert c (List.mem_cons_self c rest))
    have hrest := ih ({ s with log := s.log ++ [(c, x)] })
      (fun d hd => hlive d (List.mem_cons_of_mem c hd))
      (fun d hd => hinert d (List.mem_cons_of_mem c hd))
    simp [dispatchSnapshot, hstep, hrest]

theorem dispatchSnapshot_dead {env : Nat → α → List Action} {x : α} {d : Nat} :
    ∀ (T : List Nat) (s : PubState α), s.refcount d = 0 →
      (dispatchSnapshot env x T s).1.refcount d = 0 ∧
        (∃ ext, (dispatchSnapshot env x T s).1.log = s.log ++ ext ∧ ∀ y, (d, y) ∉ ext) ∧
        (d ∉ s.callbacks → d ∉ (dispatchSnapshot env x T s).1.callbacks) := by
  intro T
  induction T with
  | nil =>
    intro s h
    exact ⟨h, ⟨[], by simp [dispatchSnapshot], by simp⟩,
      fun hm => by simpa [dispatchSnapshot] using hm⟩
  | cons c rest ih =>
    intro s h
    obtain ⟨h1, ⟨e1, he1, hne1⟩, h3⟩ := @dispatchStep_dead α env x c d s h
    by_cases ht : (dispatchStep env x c s).2
    · refine ⟨by simpa [dispatchSnapshot, ht] using h1,
        ⟨e1, by simpa [dispatchSnapshot, ht] using he1, hne1⟩, ?_⟩
      intro hm
      simpa [dispatchSnapshot, ht] using h3 hm
    · obtain ⟨h1', ⟨e2, he2, hne2⟩, h3'⟩ := ih (dispatchStep env x c s).1 h1
      refine ⟨by simpa [dispatchSnapshot, ht] using h1', ⟨e1 ++ e2, ?_, ?_⟩, ?_⟩
      · simp [dispatchSnapshot, ht, he2, he1]
      · intro y hy
        rcases List.mem_append.mp hy with hy1 | hy2
        · exact hne1 y hy1
        · exact hne2 y hy2
      · intro hm
        simpa [dispatchSnapshot, ht] using h3' (h3 hm)

theorem dispatchSnapshot_callbacks_extend (env : Nat → α → List Action) (x : α) :
    ∀ (T : List Nat) (s : PubState α),
      ∃ ext, (dispatchSnapshot env x T s).1.callbacks = s.callbacks ++ ext := by
  intro T
  induction T with
  | nil =>
    intro s
    exact ⟨[], by simp [dispatchSnapshot]⟩
  | cons c rest ih =>
    intro s
    obtain ⟨e1, he1⟩ := dispatchStep_callbacks_extend env x c s
    by_cases ht : (dispatchStep env x c s).2
    · exact ⟨e1, by simpa [dispatchSnapshot, ht] using he1⟩
    · obtain ⟨e2, he2⟩ := ih (dispatchStep env x c s).1
      refine ⟨e1 ++ e2, ?_⟩
      simp [dispatchSnapshot, ht, he2, he1]

theorem dispatchSnapshot_no_throw {env : Nat → α → List Action} {x : α}
    (h : ∀ c, Action.throwErr ∉ env c x) :
    ∀ (T : List Nat) (s : PubState α), (dispatchSnapshot env x T s).2 = false := by
  intro T
  induction T with
  | nil =>
    intro s
    rfl
  | cons c rest ih =>
    intro s
    have hstep : (dispatchStep env x c s).2 = false := by
      by_cases hc : s.refcount c = 0
      · simp [dispatchStep, hc]
      · simp [dispatchStep, hc, runActions_no_throw (h c)]
    simp [dispatchSnapshot, hstep, ih]

theorem purgeExpired_eq_filter (rc : Nat → Nat) (M : List Nat) :
    purgeExpired rc M = M.filter (fun c => rc c != 0) := by
  induction M with
  | nil => rfl
  | cons c rest ih =>
    by_cases hc : rc c = 0 <;> simp [purgeExpired, hc, ih, List.filter_cons]

theorem purgeExpired_of_live (rc : Nat → Nat) (M : List Nat) (h : ∀ c ∈ M, 0 < rc c) :
    purgeExpired rc M = M := by
  induction M with
  | nil => rfl
  | cons c rest ih =>
    have hc : ¬ rc c = 0 := by
      have := h c (List.mem_cons_self c rest)
      omega
    simp [purgeExpired, hc, ih (fun d hd => h d (List.mem_cons_of_mem c hd))]

theorem not_mem_purgeExpired {rc : Nat → Nat} {M : List Nat} {d : Nat} (hd : rc d = 0) :
    d ∉ purgeExpired rc M := by
  rw [purgeExpired_eq_filter]
  intro hm
  have := (List.mem_filter.mp hm).2
  simp [hd] at this

theorem fire_dead {env : Nat → α → List Action} {x : α} {d : Nat} {s : PubState α}
    (hd : s.refcount d = 0) :
    (fire env x s).1.refcount d = 0 ∧
      (∃ ext, (fire env x s).1.log = s.log ++ ext ∧ ∀ y, (d, y) ∉ ext) ∧
      d ∉ (fire env x s).1.callbacks := by
  have hpd : d ∉ purgeExpired s.refcount s.callbacks := not_mem_purgeExpired hd
  have h := @dispatchSnapshot_dead α env x d (purgeExpired s.refcount s.callbacks)
    ({ s with callbacks := purgeExpired s.refcount s.callbacks }) hd
  exact ⟨by simpa [fire] using h.1, by simpa [fire] using h.2.1,
    by simpa [fire] using h.2.2 hpd⟩

theorem foldl_subscribe (L : List Nat) : ∀ (s : PubState α), (∀ c ∈ L, 0 < s.refcount c) →
    L.foldl (fun t c => subscribe c t) s = { s with callbacks := s.callbacks ++ L } := by
  induction L with
  | nil =>
    intro s _
    simp
  | cons c rest ih =>
    intro s h
    have hc := subscribe_of_live (h c (List.mem_cons_self c rest))
    have hrest := ih ({ s with callbacks := s.callbacks ++ [c] })
      (fun d hd => h d (List.mem_cons_of_mem c hd))
    simp [List.foldl_cons, hc, hrest]

theorem dispatchSnapshot_append (env : Nat → α → List Action) (x : α) (T1 T2 : List Nat) :
    ∀ s : PubState α,
      dispatchSnapshot env x (T1 ++ T2) s =
        (if (dispatchSnapshot env x T1 s).2 then ((dispatchSnapshot env x T1 s).1, true)
         else dispatchSnapshot env x T2 (dispatchSnapshot env x T1 s).1) := by
  induction T1 with
  | nil =>
    intro s
    simp [dispatchSnapshot]
  | cons c rest ih =>
    intro s
    by_cases ht : (dispatchStep env x c s).2
    · simp [dispatchSnapshot, ht]
    · simp [dispatchSnapshot, ht, ih]

theorem fire_inert_eq (env : Nat → α → List Action) (x : α) (s : PubState α)
    (hlive : ∀ c ∈ s.callbacks, 0 < s.refcount c)
    (hinert : ∀ c ∈ s.callbacks, env c x = []) :
    fire env x s = ({ s with log := s.log ++ s.callbacks.map (fun c => (c, x)) }, false) := by
  have hpurge := purgeExpired_of_live s.refcount s.callbacks hlive
  simp only [fire]
  rw [hpurge]
  exact dispatchSnapshot_inert s.callbacks s hlive hinert

theorem fire_self_release_eq (env : Nat → α → List Action) (x : α) (s : PubState α)
    (L1 L2 : List Nat) (d : Nat)
    (hcb : s.callbacks = L1 ++ d :: L2)
    (hd1 : s.refcount d = 1)
    (hself : env d x = [Action.release d])
    (hothers : ∀ c ∈ L1 ++ L2, 0 < s.refcount c ∧ c ≠ d ∧ env c x = []) :
    fire env x s =
      ({ s with
          refcount := setRC d 0 s.refcount,
          log := s.log ++ (L1 ++ d :: L2).map (fun c => (c, x)) }, false) := by
  have hlive : ∀ c ∈ L1 ++ d :: L2, 0 < s.refcount c := by
    intro c hc
    rcases List.mem_append.mp hc with h1 | h2
    · exact (hothers c (List.mem_append.mpr (Or.inl h1))).1
    · rcases List.mem_cons.mp h2 with he | h3
      · subst he
        omega
      · exact (hothers c (List.mem_append.mpr (Or.inr h3))).1
  have hpurge : purgeExpired s.refcount s.callbacks = L1 ++ d :: L2 := by
    rw [hcb]
    exact purgeExpired_of_live _ _ hlive
  have h1 := dispatchSnapshot_inert L1 ({ s with callbacks := L1 ++ d :: L2 })
    (fun c hc => (hothers c (List.mem_append.mpr (Or.inl hc))).1)
    (fun c hc => (hothers c (List.mem_append.mpr (Or.inl hc))).2.2)
  have hstep := @dispatchStep_self_release α env x d
    ({ refcount := s.refcount, callbacks := L1 ++ d :: L2,
       log := s.log ++ L1.map (fun c => (c, x)) }) hd1 hself
  have h2 := dispatchSnapshot_inert L2
    ({ refcount := setRC d 0 s.refcount, callbacks := L1 ++ d :: L2,
       log := s.log ++ (L1.map (fun c => (c, x)) ++ [(d, x)]) })
    (fun c hc => by
      have hcd := (hothers c (List.mem_append.mpr (Or.inr hc))).2.1
      simpa [setRC_ne _ _ hcd] using (hothers c (List.mem_append.mpr (Or.inr hc))).1)
    (fun c hc => (hothers c (List.mem_append.mpr (Or.inr hc))).2.2)
  simp only [fire]
  rw [hpurge, dispatchSnapshot_append, h1]
  simp [dispatchSnapshot, hstep, h2, hcb]

theorem fire_subscribing_eq (env : Nat → α → List Action) (x : α) (s : PubState α)
    (L1 L2 : List Nat) (h0 n : Nat)
    (hcb : s.callbacks = L1 ++ h0 :: L2)
    (hlive : ∀ c ∈ L1 ++ h0 :: L2, 0 < s.refcount c)
    (hn : 0 < s.refcount n) (hne : n ≠ h0)
    (hsub : env h0 x = [Action.subscribeTo n])
    (hinert : ∀ c ∈ L1 ++ L2, env c x = []) :
    fire env x s =
      ({ s with
          callbacks := (L1 ++ h0 :: L2) ++ [n],
          log := s.log ++ (L1 ++ h0 :: L2).map (fun c => (c, x)) }, false) := by
  have hpurge : purgeExpired s.refcount s.callbacks = L1 ++ h0 :: L2 := by
    rw [hcb]
    exact purgeExpired_of_live _ _ hlive
  have h1 := dispatchSnapshot_inert L1 ({ s with callbacks := L1 ++ h0 :: L2 })
    (fun c hc => hlive c (List.mem_append.mpr (Or.inl hc)))
    (fun c hc => hinert c (List.mem_append.mpr (Or.inl hc)))
  have hstep := @dispatchStep_subscribes α env x h0 n
    ({ refcount := s.refcount, callbacks := L1 ++ h0 :: L2,
       log := s.log ++ L1.map (fun c => (c, x)) })
    (hlive h0 (List.mem_append.mpr (Or.inr (List.mem_cons_self h0 L2)))) hn hne hsub
  have h2 := dispatchSnapshot_inert L2
    ({ refcount := s.refcount, callbacks := L1 ++ h0 :: (L2 ++ [n]),
       log := s.log ++ (L1.map (fun c => (c, x)) ++ [(h0, x)]) })
    (fun c hc => hlive c (List.mem_append.mpr (Or.inr (List.mem_cons_of_mem h0 hc))))
    (fun c hc => hinert c (List.mem_append.mpr (Or.inr hc)))
  simp only [fire]
  rw [hpurge, dispatchSnapshot_append, h1]
  simp [dispatchSnapshot, hstep, h2, hcb]

theorem fire_throw_eq (env : Nat → α → List Action) (x : α) (s : PubState α)
    (L1 L2 : List Nat) (f : Nat)
    (hcb : s.callbacks = L1 ++ f :: L2)
    (hlive : ∀ c ∈ L1 ++ f :: L2, 0 < s.refcount c)
    (hthrow : env f x = [Action.throwErr])
    (hinert : ∀ c ∈ L1, env c x = []) :
    fire env x s =
      ({ s with log := s.log ++ (L1.map (fun c => (c, x)) ++ [(f, x)]) }, true) := by
  have hpurge : purgeExpired s.refcount s.callbacks = L1 ++ f :: L2 := by
    rw [hcb]
    exact purgeExpired_of_live _ _ hlive
  have h1 := dispatchSnapshot_inert L1 ({ s with callbacks := L1 ++ f :: L2 })
    (fun c hc => hlive c (List.mem_append.mpr (Or.inl hc)))
    (fun c hc => hinert c hc)
  have hstep := @dispatchStep_throws α env x f
    ({ refcount := s.refcount, callbacks := L1 ++ f :: L2,
       log := s.log ++ L1.map (fun c => (c, x)) })
    (hlive f (List.mem_append.mpr (Or.inr (List.mem_cons_self f L2)))) hthrow
  simp only [fire]
  rw [hpurge, dispatchSnapshot_append, h1]
  simp [dispatchSnapshot, hstep, hcb]

/-- Claim C4: calling `subscribe` with a weak observation whose handle is
already expired (no strong reference) leaves the internal sequence completely
unchanged — nothing is appended — and raises no error (`subscribe` is a total
function); in particular, subscribing an expired handle to an empty publisher
leaves the subscriber count at 0. -/
theorem subscribe_expired_noop (s : PubState α) (c : Nat) (h : s.refcount c = 0) :
    subscribe c s = s ∧ (s.callbacks = [] → (subscribe c s).callbacks.length = 0) := by
  refine ⟨subscribe_of_dead h, ?_⟩
  intro he
  simp [subscribe_of_dead h, he]

/-- Claim C4, witness: subscribing the expired handle 5 to an empty publisher
changes nothing and the subscriber count stays 0. -/
theorem subscribe_expired_noop_witness :
    (({ refcount := fun _ => 0, callbacks := [], log := [] } : PubState Nat)).refcount 5 = 0 ∧
      subscribe 5 ({ refcount := fun _ => 0, callbacks := [], log := [] } : PubState Nat) =
        ({ refcount := fun _ => 0, callbacks := [], log := [] } : PubState Nat) ∧
      (subscribe 5 ({ refcount := fun _ => 0, callbacks := [], log := [] } : PubState Nat)).callbacks.length = 0 := by
  have h := subscribe_expired_noop
    ({ refcount := fun _ => 0, callbacks := [], log := [] } : PubState Nat) 5 rfl
  exact ⟨rfl, h.1, h.2 rfl⟩

/-- Claim C10: during the dispatch pass the publisher upgrades the weak
observation to a temporary strong reference (`lock`) held for the duration of
the invocation.  With `s.refcount d = 1` (the listener holds the sole strong
reference) and a callback that releases exactly that reference while it runs:
the callback is invoked; at the moment the invocation returns the handle still
has one strong reference (the publisher's temporary), so the callback object is
alive throughout its own invocation; and the count drops to 0 — the object is
destroyed — exactly when the temporary is released at invocation return. -/
theorem dispatchStep_holds_callback_alive (env : Nat → α → List Action) (x : α)
    (s : PubState α) (d : Nat)
    (hd1 : s.refcount d = 1)
    (hself : env d x = [Action.release d]) :
    (d, x) ∈ (dispatchStep env x d s).1.log ∧
      (runActions ({ incRef d s with log := (incRef d s).log ++ [(d, x)] })
        (env d x)).1.refcount d = 1 ∧
      (dispatchStep env x d s).1.refcount d = 0 ∧
      (dispatchStep env x d s).2 = false := by
  have hstep := @dispatchStep_self_release α env x d s hd1 hself
  refine ⟨by rw [hstep]; simp, ?_, by rw [hstep]; simp, by rw [hstep]⟩
  simp [hself, runActions, runAction, decRef, incRef, hd1, setRC]

/-- Claim C10, witness: handle 2 of `stABC` has one strong reference; its
callback releases it, yet the count during the invocation stays 1 and drops to
0 only when the dispatch step finishes. -/
theorem dispatchStep_holds_callback_alive_witness :
    stABC.refcount 2 = 1 ∧ envSelf 2 7 = [Action.release 2] ∧
      ((2, 7) ∈ (dispatchStep envSelf 7 2 stABC).1.log ∧
        (runActions ({ incRef 2 stABC with log := (incRef 2 stABC).log ++ [(2, 7)] })
          (envSelf 2 7)).1.refcount 2 = 1 ∧
        (dispatchStep envSelf 7 2 stABC).1.refcount 2 = 0 ∧
        (dispatchStep envSelf 7 2 stABC).2 = false) :=
  ⟨rfl, rfl, dispatchStep_holds_callback_alive envSelf 7 stABC 2 rfl rfl⟩

/-- Claim C6, counterexample: subscribers 1 and 2 are both live and both in the
snapshot, subscriber 1's callback raises an error, and `publish` propagates it:
only `(1, 0)` is logged, so the remaining snapshot entry — the still-live
subscriber 2 — was never processed, contradicting the claim that a throwing
callback does not prevent the remaining snapshot entries from being
processed. -/
theorem publish_throw_counterexample :
    (publish throwEnv 0 throwState).2 = true ∧
      0 < throwState.refcount 2 ∧ 2 ∈ throwState.callbacks ∧
      (publish throwEnv 0 throwState).1.log = [(1, 0)] := by
  refine ⟨rfl, by decide, by decide, rfl⟩

/-- Claim C6, amended: control returns to the caller only after the last
snapshot entry has been processed provided no callback raises an error — the
dispatch loop then runs to completion and `publish` returns normally no matter
how many callbacks actually ran (lock failures are skipped silently).  If a
callback does raise, the error propagates at once and the remaining snapshot
entries are not processed. -/
theorem publish_no_throw_completes (env : Nat → α → List Action) (x : α)
    (s : PubState α) (h : ∀ c, Action.throwErr ∉ env c x) :
    (publish env x s).2 = false := by
  simp only [publish, fire]
  exact dispatchSnapshot_no_throw h _ _

/-- Claim C6, amended, witness: with callbacks that perform no actions, a
publication over `throwState` returns normally. -/
theorem publish_no_throw_completes_witness :
    (∀ c, Action.throwErr ∉ envNop c 0) ∧ (publish envNop 0 throwState).2 = false :=
  ⟨fun c => List.not_mem_nil _,
   publish_no_throw_completes envNop 0 throwState (fun c => List.not_mem_nil _)⟩

/-- Claim C5 (purge pass): the purge loop at the start of `publish` computes
exactly the front-to-back filter keeping the non-expired entries — a sublist of
the original sequence, so live entries keep their original relative order, and
every surviving entry is live.  Consequently a subscriber `d` whose strong
reference was already released (refcount 0) but which still occupies a slot of
`_callbacks` is removed by this purge and its callback is not invoked by this
`publish`. -/
theorem fire_purge_pass (env : Nat → α → List Action) (x : α) (s : PubState α)
    (d : Nat) (hd : s.refcount d = 0) (hm : d ∈ s.callbacks) :
    purgeExpired s.refcount s.callbacks = s.callbacks.filter (fun c => s.refcount c != 0) ∧
      List.Sublist (purgeExpired s.refcount s.callbacks) s.callbacks ∧
      (∀ c ∈ purgeExpired s.refcount s.callbacks, 0 < s.refcount c) ∧
      d ∉ purgeExpired s.refcount s.callbacks ∧
      d ∉ (fire env x s).1.callbacks ∧
      (∃ ext, (fire env x s).1.log = s.log ++ ext ∧ ∀ y, (d, y) ∉ ext) := by
  obtain ⟨ha, hb, hc⟩ := @fire_dead α env x d s hd
  refine ⟨purgeExpired_eq_filter _ _, ?_, ?_, not_mem_purgeExpired hd, hc, hb⟩
  · rw [purgeExpired_eq_filter]
    exact List.filter_sublist _
  · intro c2 hc2
    rw [purgeExpired_eq_filter] at hc2
    have hne := (List.mem_filter.mp hc2).2
    simp at hne
    omega

/-- Claim C5, witness: in a publisher where handle 2's strong reference is gone
but slot 2 is still occupied, the purge of `publish` filters it out, it is
absent from the surviving callbacks, and its callback is not invoked. -/
theorem fire_purge_pass_witness :
    (({ refcount := rcUpTo 1, callbacks := [1, 2], log := [] } : PubState Nat)).refcount 2 = 0 ∧
      2 ∈ (({ refcount := rcUpTo 1, callbacks := [1, 2], log := [] } : PubState Nat)).callbacks ∧
      2 ∉ (fire envNop 9
        ({ refcount := rcUpTo 1, callbacks := [1, 2], log := [] } : PubState Nat)).1.callbacks := by
  have h := fire_purge_pass envNop 9
    ({ refcount := rcUpTo 1, callbacks := [1, 2], log := [] } : PubState Nat) 2
    (by decide) (by decide)
  exact ⟨by decide, by decide, h.2.2.2.2.1⟩

/-- Claim C2 (FIFO delivery): registering the live handles S1..SN in order via
`subscribe` into a publisher with no subscribers and then calling `publish x`
invokes each of their callbacks exactly once, in exactly the registration
order, each receiving `x` unchanged.  The subscribers' callbacks perform no
publisher-visible effects, so every registered subscriber is live at dispatch
time as the claim requires. -/
theorem publish_fifo (env : Nat → α → List Action) (x : α) (s0 : PubState α)
    (L : List Nat)
    (hempty : s0.callbacks = [])
    (hlive : ∀ c ∈ L, 0 < s0.refcount c)
    (hinert : ∀ c ∈ L, env c x = []) :
    (L.foldl (fun t c => subscribe c t) s0).callbacks = L ∧
      publish env x (L.foldl (fun t c => subscribe c t) s0) =
        ({ s0 with callbacks := L, log := s0.log ++ L.map (fun c => (c, x)) }, false) := by
  have hreg := foldl_subscribe L s0 hlive
  have hcb : (L.foldl (fun t c => subscribe c t) s0).callbacks = L := by
    rw [hreg]
    simp [hempty]
  refine ⟨hcb, ?_⟩
  rw [hreg, hempty]
  have hfire := fire_inert_eq env x ({ s0 with callbacks := [] ++ L })
    (fun c hc => hlive c (by simpa using hc))
    (fun c hc => hinert c (by simpa using hc))
  simpa [publish] using hfire

/-- Claim C2, witness: subscribing the live handles 1, 2, 3 in order into an
empty publisher and publishing the value 7 logs exactly
`[(1, 7), (2, 7), (3, 7)]`. -/
theorem publish_fifo_witness :
    (∀ c ∈ [1, 2, 3],
      0 < (({ refcount := rcUpTo 3, callbacks := [], log := [] } : PubState Nat)).refcount c) ∧
      (publish envNop 7 ([1, 2, 3].foldl (fun t c => subscribe c t)
        ({ refcount := rcUpTo 3, callbacks := [], log := [] } : PubState Nat))).1.log =
        [(1, 7), (2, 7), (3, 7)] := by
  have h := publish_fifo envNop 7
    ({ refcount := rcUpTo 3, callbacks := [], log := [] } : PubState Nat) [1, 2, 3]
    rfl (by decide) (fun c hc => rfl)
  refine ⟨by decide, ?_⟩
  rw [h.2]
  decide

/-- Claim C7: an error raised by subscriber `f`'s callback during the dispatch
pass is not caught by the publisher: `publish` ends with the thrown flag set,
the log having gained exactly the entries of the subscribers before `f` and
`f`'s own entry, and no subscriber after `f` in the same snapshot is invoked.
`subscribe` and the purge loop are total functions with no error outcome in
their result type, so neither ever raises. -/
theorem publish_error_propagation (env : Nat → α → List Action) (x : α)
    (s : PubState α) (L1 L2 : List Nat) (f : Nat)
    (hcb : s.callbacks = L1 ++ f :: L2)
    (hlive : ∀ c ∈ L1 ++ f :: L2, 0 < s.refcount c)
    (hthrow : env f x = [Action.throwErr])
    (hinert : ∀ c ∈ L1, env c x = []) :
    publish env x s =
      ({ s with log := s.log ++ (L1.map (fun c => (c, x)) ++ [(f, x)]) }, true) ∧
      (∀ c ∈ L2, c ∉ L1 → c ≠ f → (∀ y, (c, y) ∉ s.log) →
        ∀ y, (c, y) ∉ (publish env x s).1.log) := by
  have hmain := fire_throw_eq env x s L1 L2 f hcb hlive hthrow hinert
  have hlog : (publish env x s).1.log =
      s.log ++ (L1.map (fun c2 => (c2, x)) ++ [(f, x)]) := by
    simp [publish, hmain]
  refine ⟨by simpa [publish] using hmain, ?_⟩
  intro c hc hcL1 hcf hnotlog y hmem
  rw [hlog] at hmem
  rcases List.mem_append.mp hmem with h1 | h1
  · exact hnotlog y h1
  · rcases List.mem_append.mp h1 with h2 | h2
    · obtain ⟨c2, hc2, he⟩ := List.mem_map.mp h2
      injection he with e1 e2
      exact hcL1 (e1 ▸ hc2)
    · simp at h2
      exact hcf h2.1

/-- Claim C7, witness: subscriber 1 of `throwState` throws; `publish` returns
with the error flag set after logging only `(1, 0)`, and the live subscriber 2,
later in the same snapshot, is never invoked. -/
theorem publish_error_propagation_witness :
    throwState.callbacks = [] ++ 1 :: [2] ∧ throwEnv 1 0 = [Action.throwErr] ∧
      publish throwEnv 0 throwState =
        ({ throwState with
            log := throwState.log ++ (([] : List Nat).map (fun c => (c, 0)) ++ [(1, 0)]) },
          true) := by
  have h := publish_error_propagation throwEnv 0 throwState [] [2] 1 rfl (by decide) rfl
    (fun c hc => absurd hc (List.not_mem_nil c))
  exact ⟨rfl, rfl, h.1⟩

/-- Claim C8: `subscribe` is not idempotent by handle identity — subscribing
the same live handle twice makes the internal sequence hold it twice, and each
subsequent publication (while the handle stays live) invokes its callback
exactly twice. -/
theorem subscribe_twice_double_dispatch (env : Nat → α → List Action) (x x2 : α)
    (s : PubState α) (h : Nat)
    (hempty : s.callbacks = [])
    (hlive : 0 < s.refcount h)
    (hinert : env h x = []) (hinert2 : env h x2 = []) :
    (subscribe h (subscribe h s)).callbacks = [h, h] ∧
      fire env x (subscribe h (subscribe h s)) =
        ({ s with callbacks := [h, h], log := s.log ++ [(h, x), (h, x)] }, false) ∧
      fire env x2 (fire env x (subscribe h (subscribe h s))).1 =
        ({ s with
            callbacks := [h, h],
            log := (s.log ++ [(h, x), (h, x)]) ++ [(h, x2), (h, x2)] }, false) := by
  have h2 : subscribe h (subscribe h s) = { s with callbacks := [h, h] } := by
    rw [subscribe_of_live hlive,
      @subscribe_of_live α h ({ s with callbacks := s.callbacks ++ [h] }) hlive]
    simp [hempty]
  have hf1 := fire_inert_eq env x ({ s with callbacks := [h, h] })
    (fun c hc => by
      have hch : c = h := by simpa using hc
      subst hch
      exact hlive)
    (fun c hc => by
      have hch : c = h := by simpa using hc
      subst hch
      exact hinert)
  have hf2 := fire_inert_eq env x2
    ({ s with callbacks := [h, h], log := s.log ++ [(h, x), (h, x)] })
    (fun c hc => by
      have hch : c = h := by simpa using hc
      subst hch
      exact hlive)
    (fun c hc => by
      have hch : c = h := by simpa using hc
      subst hch
      exact hinert2)
  refine ⟨by rw [h2], ?_, ?_⟩
  · rw [h2, hf1]
    simp
  · rw [h2, hf1]
    simp [hf2]

/-- Claim C8, witness: subscribing the live handle 1 twice into an empty
publisher yields the sequence `[1, 1]`, and the first publication logs handle
1's callback exactly twice. -/
theorem subscribe_twice_double_dispatch_witness :
    0 < (({ refcount := rcUpTo 1, callbacks := [], log := [] } : PubState Nat)).refcount 1 ∧
      (subscribe 1 (subscribe 1
        ({ refcount := rcUpTo 1, callbacks := [], log := [] } : PubState Nat))).callbacks = [1, 1] ∧
      (fire envNop 5 (subscribe 1 (subscribe 1
        ({ refcount := rcUpTo 1, callbacks := [], log := [] } : PubState Nat)))).1.log =
        [(1, 5), (1, 5)] := by
  have h := subscribe_twice_double_dispatch envNop 5 6
    ({ refcount := rcUpTo 1, callbacks := [], log := [] } : PubState Nat) 1
    rfl (by decide) rfl rfl
  refine ⟨by decide, h.1, ?_⟩
  rw [h.2.1]
  decide

/-- Claim C1 (self-destruction safety): with subscribers `L1 ++ d :: L2` in the
snapshot, all live, where `d`'s callback releases its own handle's last strong
reference while running and the others perform no publisher-visible actions,
the dispatch pass still invokes every subscriber exactly once in order — the
log gains exactly one entry per snapshot entry, none skipped, none visited
twice, `d` itself included since its callback is the one running — `publish`
returns normally, `d` is expired afterwards, and no later publication (any
environment, any argument) ever invokes `d`'s callback again; the next one also
drops `d` from the sequence. -/
theorem fire_self_destruction (env : Nat → α → List Action) (x : α) (s : PubState α)
    (L1 L2 : List Nat) (d : Nat)
    (hcb : s.callbacks = L1 ++ d :: L2)
    (hd1 : s.refcount d = 1)
    (hself : env d x = [Action.release d])
    (hothers : ∀ c ∈ L1 ++ L2, 0 < s.refcount c ∧ c ≠ d ∧ env c x = []) :
    (fire env x s).1.log = s.log ++ (L1 ++ d :: L2).map (fun c => (c, x)) ∧
      (fire env x s).2 = false ∧
      (fire env x s).1.refcount d = 0 ∧
      (∀ (env2 : Nat → α → List Action) (x2 : α),
        (∃ ext, (fire env2 x2 (fire env x s).1).1.log = (fire env x s).1.log ++ ext ∧
          ∀ y, (d, y) ∉ ext) ∧
        (fire env2 x2 (fire env x s).1).1.refcount d = 0 ∧
        d ∉ (fire env2 x2 (fire env x s).1).1.callbacks) := by
  have hmain := fire_self_release_eq env x s L1 L2 d hcb hd1 hself hothers
  have hdead : (fire env x s).1.refcount d = 0 := by
    rw [hmain]
    simp
  refine ⟨by rw [hmain], by rw [hmain], hdead, ?_⟩
  intro env2 x2
  obtain ⟨ha, hb, hc⟩ := @fire_dead α env2 x2 d (fire env x s).1 hdead
  exact ⟨hb, ha, hc⟩

/-- Claim C1, witness: in `stABC` subscriber 2 self-destructs while running;
all three subscribers are still invoked once each in order, and a later
publication neither invokes 2 nor keeps it in the sequence. -/
theorem fire_self_destruction_witness :
    stABC.refcount 2 = 1 ∧
      (fire envSelf 7 stABC).1.log = [(1, 7), (2, 7), (3, 7)] ∧
      (fire envSelf 7 stABC).2 = false ∧
      (fire envSelf 7 stABC).1.refcount 2 = 0 ∧
      (fire envNop 8 (fire envSelf 7 stABC).1).1.refcount 2 = 0 ∧
      2 ∉ (fire envNop 8 (fire envSelf 7 stABC).1).1.callbacks := by
  have h := fire_self_destruction envSelf 7 stABC [1] [3] 2 rfl rfl rfl (by decide)
  obtain ⟨h1, h2, h3, h4⟩ := h
  obtain ⟨he, h5, h6⟩ := h4 envNop 8
  refine ⟨rfl, ?_, h2, h3, h5, h6⟩
  rw [h1]
  decide

/-- Claim C3 (mutation-during-dispatch isolation): a callback that calls
`subscribe` with a brand-new live handle `n` during dispatch does not cause `n`
to receive the current publication — `n` is absent from the log extension,
which covers exactly the old snapshot — but `n` is appended to the live
sequence and the next publication (whose callbacks perform no actions) invokes
it. -/
theorem fire_subscribe_during_dispatch (env env2 : Nat → α → List Action)
    (x x2 : α) (s : PubState α) (L1 L2 : List Nat) (h0 n : Nat)
    (hcb : s.callbacks = L1 ++ h0 :: L2)
    (hlive : ∀ c ∈ L1 ++ h0 :: L2, 0 < s.refcount c)
    (hn : 0 < s.refcount n)
    (hnotin : n ∉ L1 ++ h0 :: L2)
    (hsub : env h0 x = [Action.subscribeTo n])
    (hinert : ∀ c ∈ L1 ++ L2, env c x = [])
    (hinert2 : ∀ c, env2 c x2 = []) :
    (fire env x s).1.callbacks = (L1 ++ h0 :: L2) ++ [n] ∧
      (fire env x s).1.log = s.log ++ (L1 ++ h0 :: L2).map (fun c => (c, x)) ∧
      (∀ y, (n, y) ∉ (L1 ++ h0 :: L2).map (fun c => (c, x))) ∧
      (fire env2 x2 (fire env x s).1).1.log =
        (fire env x s).1.log ++ ((L1 ++ h0 :: L2) ++ [n]).map (fun c => (c, x2)) := by
  have hne : n ≠ h0 := by
    intro he
    subst he
    exact hnotin (List.mem_append.mpr (Or.inr (List.mem_cons_self n L2)))
  have hmain := fire_subscribing_eq env x s L1 L2 h0 n hcb hlive hn hne hsub hinert
  have hstate : (fire env x s).1 =
      ({ s with
          callbacks := (L1 ++ h0 :: L2) ++ [n],
          log := s.log ++ (L1 ++ h0 :: L2).map (fun c => (c, x)) } : PubState α) := by
    rw [hmain]
  refine ⟨by rw [hmain], by rw [hmain], ?_, ?_⟩
  · intro y hy
    obtain ⟨c, hc, he⟩ := List.mem_map.mp hy
    injection he with e1 e2
    exact hnotin (e1 ▸ hc)
  · have hlive2 : ∀ c ∈ (L1 ++ h0 :: L2) ++ [n], 0 < s.refcount c := by
      intro c hc
      rcases List.mem_append.mp hc with h1 | h1
      · exact hlive c h1
      · have hcn : c = n := by simpa using h1
        subst hcn
        exact hn
    have hsecond := fire_inert_eq env2 x2
      ({ s with
          callbacks := (L1 ++ h0 :: L2) ++ [n],
          log := s.log ++ (L1 ++ h0 :: L2).map (fun c => (c, x)) })
      (fun c hc => hlive2 c hc) (fun c hc => hinert2 c)
    rw [hstate, hsecond]

/-- Claim C3, witness: subscriber 2's callback subscribes the fresh live handle
4 during the publication of 7; handle 4 is not invoked by that publication,
ends up appended to the sequence, and is invoked by the next publication. -/
theorem fire_subscribe_during_dispatch_witness :
    0 < (({ refcount := rcUpTo 4, callbacks := [1, 2, 3], log := [] } : PubState Nat)).refcount 4 ∧
      (fire envSub 7 ({ refcount := rcUpTo 4, callbacks := [1, 2, 3], log := [] } : PubState Nat)).1.callbacks = ([1] ++ 2 :: [3]) ++ [4] ∧
      (∀ y, (4, y) ∉ ([1] ++ 2 :: [3]).map (fun c => (c, (7 : Nat)))) ∧
      (fire envNop 8 (fire envSub 7 ({ refcount := rcUpTo 4, callbacks := [1, 2, 3], log := [] } : PubState Nat)).1).1.log =
        (fire envSub 7 ({ refcount := rcUpTo 4, callbacks := [1, 2, 3], log := [] } : PubState Nat)).1.log ++
          (([1] ++ 2 :: [3]) ++ [4]).map (fun c => (c, 8)) := by
  have h := fire_subscribe_during_dispatch envSub envNop 7 8
    ({ refcount := rcUpTo 4, callbacks := [1, 2, 3], log := [] } : PubState Nat)
    [1] [3] 2 4 rfl (by decide) (by decide) (by decide) rfl (by decide) (fun c => rfl)
  exact ⟨by decide, h.1, h.2.2.1, h.2.2.2⟩

/-- Claim C9: the internal sequence is mutated only by `subscribe` (appends)
and the purge step of `publish` (removal of expired entries) — for every state
the sequence after `fire` is the purged sequence plus appended entries, never a
reordering or mid-dispatch removal.  Concretely, when subscriber `d` expires
during dispatch (after the snapshot was taken) the live sequence is unchanged
when `fire` returns — `d` still occupies its slot — `d`'s handle is expired,
and the next `publish` call's purge pass is what removes it. -/
theorem fire_mutation_paths (env env2 : Nat → α → List Action) (x x2 : α)
    (s : PubState α) (L1 L2 : List Nat) (d : Nat)
    (hcb : s.callbacks = L1 ++ d :: L2)
    (hd1 : s.refcount d = 1)
    (hself : env d x = [Action.release d])
    (hothers : ∀ c ∈ L1 ++ L2, 0 < s.refcount c ∧ c ≠ d ∧ env c x = []) :
    (∀ (env3 : Nat → α → List Action) (x3 : α) (t : PubState α),
      ∃ ext, (fire env3 x3 t).1.callbacks = purgeExpired t.refcount t.callbacks ++ ext) ∧
      (fire env x s).1.callbacks = s.callbacks ∧
      (fire env x s).1.refcount d = 0 ∧
      d ∉ (fire env2 x2 (fire env x s).1).1.callbacks := by
  have hmain := fire_self_release_eq env x s L1 L2 d hcb hd1 hself hothers
  have hdead : (fire env x s).1.refcount d = 0 := by
    rw [hmain]
    simp
  refine ⟨?_, by rw [hmain], hdead, ?_⟩
  · intro env3 x3 t
    obtain ⟨ext, he⟩ := dispatchSnapshot_callbacks_extend env3 x3
      (purgeExpired t.refcount t.callbacks)
      ({ t with callbacks := purgeExpired t.refcount t.callbacks })
    exact ⟨ext, by simpa [fire] using he⟩
  · exact (@fire_dead α env2 x2 d (fire env x s).1 hdead).2.2

/-- Claim C9, witness: subscriber 2 of `stABC` expires during dispatch; the
sequence is unchanged when `fire` returns, still containing slot 2, and the
next publication's purge removes it. -/
theorem fire_mutation_paths_witness :
    stABC.callbacks = [1] ++ 2 :: [3] ∧
      (fire envSelf 7 stABC).1.callbacks = stABC.callbacks ∧
      (fire envSelf 7 stABC).1.refcount 2 = 0 ∧
      2 ∉ (fire envNop 8 (fire envSelf 7 stABC).1).1.callbacks := by
  have h := fire_mutation_paths envSelf envNop 7 8 stABC [1] [3] 2 rfl rfl rfl (by decide)
  exact ⟨rfl, h.2.1, h.2.2.1, h.2.2.2⟩

end Publisher
